import Mathlib

/-!
Verification of the Hyperliquid logistic-regression trading repository.

This file gives a shallow embedding, in Lean 4, of the two core pieces of the
repository that the specification talks about:

* the backtest execution simulator, `Backtester.run_backtest` in
  `src/backtest/engine.py` (the simulation loop over feature rows: mark to
  market, entry fills, exit rules, fees, the trade ledger and the equity
  curve, and the end-of-sequence close), and
* the feature pipeline, `FeatureCalculator.compute_features` in
  `src/features/calculator.py` (best bid/ask derived features, returns,
  rolling volatility in its two modes, and the forward-looking label),
  together with the single-snapshot live invocation in `src/live/engine.py`.

Prices, sizes, cash and probabilities are embedded as rationals (`ℚ`); the
Python floats carry exact decimal constants here, so every fee / PnL identity
of the source is exact in `ℚ`.  Timestamps are integers (milliseconds, as in
the pandas data; `pd.Timedelta(minutes=5)` is 300000 ms).  A Python float
`NaN` (from a 0/0 division) and a polars `null` are both embedded as `none`
of an `Option`; comments at each field say which of the two the `none`
stands for, because `drop_nulls` removes nulls but not NaNs.
-/

/-! ## The Row type consumed by the simulation loop

`run_backtest` reads `row['bid_px']`, `row['ask_px']`, `row['timestamp']` and
`row['prob']` (the model probability attached in the same function).  The
`mid_price` column is read into `current_price` but never used afterwards,
so it is omitted here. -/

structure Row where
  ts : ℤ
  bid_px : ℚ
  ask_px : ℚ
  prob : ℚ
  deriving DecidableEq, Repr

/-- `side` of a trade dict in the ledger. -/
inductive Side where
  | BUY
  | SELL
  deriving DecidableEq, Repr

/-- A trade dict appended to `trades`.  The three kinds of dict the source
appends carry different key sets (the BUY dict has no `pnl`/`reason`, the
end-of-sequence SELL dict has no `size`/`fee`/`pnl`), so the optional keys
are `Option` fields, `none` meaning the key is absent. -/
structure Trade where
  side : Side
  price : ℚ
  size : Option ℚ
  time : ℤ
  fee : Option ℚ
  pnl : Option ℚ
  reason : Option String
  deriving DecidableEq, Repr

/-- One entry of `equity_curve`. -/
structure EquityPoint where
  time : ℤ
  equity : ℚ
  deriving DecidableEq, Repr

/-- The mutable locals of the simulation loop in `run_backtest`.

`size` is the Python local assigned in the BUY branch; it leaks across loop
iterations and is read again by the SELL branch's PnL expression, so it is
part of the state.  Before the first BUY the Python name is unbound; that
read is unreachable (a SELL requires `position == 1`, which only a BUY
establishes), and the initial value `0` here is never observed. -/
structure SimState where
  position : ℕ
  entry_price : ℚ
  entry_time : ℤ
  cash : ℚ
  holdings : ℚ
  size : ℚ
  trades : List Trade
  equity_curve : List EquityPoint
  deriving DecidableEq, Repr

/-- `self.fee_rate = 0.00025` (2.5 bps taker fee). -/
def fee_rate : ℚ := 25 / 100000

/-- `buy_threshold = 0.6`. -/
def buy_threshold : ℚ := 6 / 10

/-- `stop_loss = 0.005`. -/
def stop_loss : ℚ := 5 / 1000

/-- `take_profit = 0.01`. -/
def take_profit : ℚ := 1 / 100

/-- `max_hold_time = pd.Timedelta(minutes=5)`, in milliseconds. -/
def max_hold_time : ℤ := 300000

/-- The exit-rule cascade of the LONG branch (`if pct_change >= take_profit:
... elif ... elif ... elif row['prob'] < 0.4: ...`): the first true rule
yields the recorded reason string, `none` meaning `exit_signal` stays
false. -/
def exitReason (entry_price : ℚ) (entry_time : ℤ) (r : Row) : Option String :=
  let pct_change := (r.bid_px - entry_price) / entry_price
  let time_held := r.ts - entry_time
  if pct_change ≥ take_profit then some "TP"
  else if pct_change ≤ -stop_loss then some "SL"
  else if time_held ≥ max_hold_time then some "Time"
  else if r.prob < 4 / 10 then some "Signal"
  else none

/-- One iteration of `for i, row in df.iterrows():` in `run_backtest`. -/
def step (s : SimState) (r : Row) : SimState :=
  -- Mark to Market
  let current_equity := s.cash + (if s.holdings > 0 then s.holdings * r.bid_px else 0)
  let s := { s with equity_curve := s.equity_curve ++ [⟨r.ts, current_equity⟩] }
  if s.position = 0 then
    if r.prob > buy_threshold then
      -- BUY: fill at ask, max possible size with a 0.99 buffer for fees
      let buy_price := r.ask_px
      let size := (s.cash * (99 / 100)) / buy_price
      let cost := size * buy_price
      let fee := cost * fee_rate
      { s with
        cash := s.cash - (cost + fee)
        holdings := size
        position := 1
        entry_price := buy_price
        entry_time := r.ts
        size := size
        trades := s.trades ++
          [{ side := .BUY, price := buy_price, size := some size, time := r.ts,
             fee := some fee, pnl := none, reason := none }] }
    else s
  else
    match exitReason s.entry_price s.entry_time r with
    | none => s
    | some reason =>
      -- SELL: fill at bid
      let sell_price := r.bid_px
      let revenue := s.holdings * sell_price
      let fee := revenue * fee_rate
      let cash' := s.cash + (revenue - fee)
      let holdings' := (0 : ℚ)
      -- the dict's 'size' key reads `holdings` after the zeroing assignment
      -- (the source comments: "this is 0 now, should log previous size");
      -- the 'pnl' key reads the leaked BUY-branch local `size`
      { s with
        cash := cash'
        holdings := holdings'
        position := 0
        trades := s.trades ++
          [{ side := .SELL, price := sell_price, size := some holdings', time := r.ts,
             fee := some fee,
             pnl := some (revenue - fee -
               (s.entry_price * s.size + s.entry_price * s.size * fee_rate)),
             reason := some reason }] }

/-- The loop state at entry: `position = 0`, `entry_price = 0.0`, `cash`
is the starting capital, `holdings = 0.0`, empty ledger and curve. -/
def initState (initial_cash : ℚ) : SimState :=
  { position := 0, entry_price := 0, entry_time := 0, cash := initial_cash,
    holdings := 0, size := 0, trades := [], equity_curve := [] }

/-- The full `for` loop of `run_backtest` (everything before `# Final Close`). -/
def simLoop (rows : List Row) (initial_cash : ℚ) : SimState :=
  rows.foldl step (initState initial_cash)

/-- `# Final Close`: if still long, sell at the last row's bid.  Faithful to
the source: the appended dict has only `side`, `price`, `time`, `reason`
keys, and neither `holdings` nor `position` is reassigned. -/
def finalClose (rows : List Row) (s : SimState) : SimState :=
  if s.position = 1 then
    match rows.getLast? with
    | none => s  -- `df.iloc[-1]` is unreachable on an empty frame while long
    | some r =>
      let sell_price := r.bid_px
      let revenue := s.holdings * sell_price
      let fee := revenue * fee_rate
      { s with
        cash := s.cash + (revenue - fee)
        trades := s.trades ++
          [{ side := .SELL, price := sell_price, size := none, time := r.ts,
             fee := none, pnl := none, reason := some "End" }] }
  else s

/-- `run_backtest`'s simulation, from the loop entry to just before the
returned data frames: the loop followed by the final close.  The starting
capital is a parameter (the source fixes `cash = 10000.0`). -/
def runBacktest (rows : List Row) (initial_cash : ℚ) : SimState :=
  finalClose rows (simLoop rows initial_cash)

/-- The loop state just before processing the row at index `i`. -/
def stateBefore (rows : List Row) (initial_cash : ℚ) (i : ℕ) : SimState :=
  simLoop (rows.take i) initial_cash

example : (simLoop [⟨0, 999/10, 100, 8/10⟩] 10000).holdings = 99 := by
  norm_num [simLoop, step, initState, buy_threshold, fee_rate]
example : (simLoop [⟨0, 999/10, 100, 8/10⟩] 10000).cash = 97525/1000 := by
  norm_num [simLoop, step, initState, buy_threshold, fee_rate]

/-! ## The feature pipeline, `FeatureCalculator.compute_features`

A raw L2 snapshot after the best-level extraction (`levels[0][0]`,
`levels[1][0]`, cast to float): best bid/ask price and size plus the
timestamp.  The frame is sorted by timestamp before any rolling feature, so
the embedding takes the time-ordered sequence as input.

polars `rolling_std` uses the sample standard deviation (`ddof = 1`), an
irrational square root; the pipeline is therefore parametrised by the square
root function `sq : ℚ → ℚ`, applied to the exact rational sample variance.
Every property proved below (which rows are dropped, which get `0`
substituted, which window feeds the computation) holds for every `sq`. -/

structure Snap where
  ts : ℤ
  bid_px : ℚ
  ask_px : ℚ
  bid_sz : ℚ
  ask_sz : ℚ
  deriving DecidableEq, Repr

instance : Inhabited Snap := ⟨⟨0, 0, 0, 0, 0⟩⟩

/-- `mid_price = (bid_px + ask_px) / 2`. -/
def midPrice (s : Snap) : ℚ := (s.bid_px + s.ask_px) / 2

/-- `spread = ask_px - bid_px`. -/
def spreadOf (s : Snap) : ℚ := s.ask_px - s.bid_px

/-- `imbalance_1 = (bid_sz - ask_sz) / (bid_sz + ask_sz)` as float division:
`none` encodes the non-finite float the division produces when the
denominator is zero (IEEE `NaN` when the numerator is zero too, which is the
both-sizes-zero case; never a polars `null`). -/
def imbalance (s : Snap) : Option ℚ :=
  if s.bid_sz + s.ask_sz = 0 then none
  else some ((s.bid_sz - s.ask_sz) / (s.bid_sz + s.ask_sz))

/-- `wmp = (bid_px·ask_sz + ask_px·bid_sz) / (bid_sz + ask_sz)`, same
float-division convention as `imbalance`. -/
def wmp (s : Snap) : Option ℚ :=
  if s.bid_sz + s.ask_sz = 0 then none
  else some ((s.bid_px * s.ask_sz + s.ask_px * s.bid_sz) / (s.bid_sz + s.ask_sz))

/-- The `mid_price` column. -/
def midCol (snaps : List Snap) : List ℚ := snaps.map midPrice

/-- `returns = mid_price.pct_change()`: `null` (= `none`) at the first row,
`m[i]/m[i-1] - 1` afterwards. -/
def returnsCol (ms : List ℚ) : List (Option ℚ) :=
  match ms with
  | [] => []
  | _ :: _ => none :: (ms.zip ms.tail).map (fun p => some (p.2 / p.1 - 1))

/-- Value of a column at row `i` (`none` both when out of range and when the
entry is null). -/
def colAt (xs : List (Option ℚ)) (i : ℕ) : Option ℚ := (xs.get? i).getD none

/-- The trailing positional window of width 5 ending at row `i`:
rows `max (i-4) 0 … i`. -/
def windowAt (xs : List (Option ℚ)) (i : ℕ) : List (Option ℚ) :=
  (xs.take (i + 1)).drop (i + 1 - 5)

/-- Mean of a list of rationals (junk `0` on the empty list, via `ℚ`'s
zero-denominator division; never reached with fewer than 1 sample). -/
def meanOf (xs : List ℚ) : ℚ := xs.sum / (xs.length : ℚ)

/-- Sample variance, `ddof = 1` as in polars `rolling_std`.  On a
single-sample window the float computation divides by zero; in `ℚ` that
division yields `0`, and no theorem below depends on the value taken on
windows of fewer than 2 samples. -/
def sampleVar (xs : List ℚ) : ℚ :=
  (xs.map (fun x => (x - meanOf xs) ^ 2)).sum / ((xs.length : ℚ) - 1)

/-- polars `rolling_std(window_size=5, min_periods=minp)` over a nullable
column: at each row, the non-null values of the trailing width-5 window are
aggregated when at least `minp` of them exist, else the result is null. -/
def rollingStdCol (sq : ℚ → ℚ) (minp : ℕ) (xs : List (Option ℚ)) : List (Option ℚ) :=
  (List.range xs.length).map fun i =>
    let vals := (windowAt xs i).filterMap id
    if minp ≤ vals.length then some (sq (sampleVar vals)) else none

/-- `future_return_5m = (mid_price.shift(-5) - mid_price) / mid_price`:
null (= `none`) when no row exists 5 steps ahead. -/
def futureRetCol (ms : List ℚ) : List (Option ℚ) :=
  (List.range ms.length).map fun i =>
    match ms.get? (i + 5) with
    | some m5 => some ((m5 - ms.getD i 0) / ms.getD i 0)
    | none => none

/-- `target = (future_return_5m > 0.001).cast(Int32)`, null where the future
return is null. -/
def targetCol (ms : List ℚ) : List (Option ℤ) :=
  (futureRetCol ms).map (fun o => o.map (fun fr => if fr > 1 / 1000 then 1 else 0))

/-- A row of the frame `compute_features` returns (its `select_cols`):
`imbalance_1`/`wmp` use the float-`NaN` convention of `imbalance`,
`volatility_5m`'s `none` is a polars null, `target` is absent (`none`) in
inference mode. -/
structure FeatureRow where
  ts : ℤ
  bid_px : ℚ
  ask_px : ℚ
  bid_sz : ℚ
  ask_sz : ℚ
  mid_price : ℚ
  spread : ℚ
  imbalance_1 : Option ℚ
  wmp : Option ℚ
  volatility_5m : Option ℚ
  target : Option ℤ
  deriving DecidableEq, Repr

/-- The training-mode volatility column:
`rolling_std(window_size=5)`, whose `min_periods` defaults to the window
size 5. -/
def volColTrain (sq : ℚ → ℚ) (snaps : List Snap) : List (Option ℚ) :=
  rollingStdCol sq 5 (returnsCol (midCol snaps))

/-- The inference-mode volatility column:
`rolling_std(window_size=5, min_periods=1).fill_null(0)`. -/
def volColInfer (sq : ℚ → ℚ) (snaps : List Snap) : List (Option ℚ) :=
  (rollingStdCol sq 1 (returnsCol (midCol snaps))).map (fun o => some (o.getD 0))

/-- The output row built from snapshot `i` in training mode. -/
def rowTrain (sq : ℚ → ℚ) (snaps : List Snap) (i : ℕ) : FeatureRow :=
  let s := snaps.getD i default
  { ts := s.ts, bid_px := s.bid_px, ask_px := s.ask_px,
    bid_sz := s.bid_sz, ask_sz := s.ask_sz,
    mid_price := midPrice s, spread := spreadOf s,
    imbalance_1 := imbalance s, wmp := wmp s,
    volatility_5m := colAt (volColTrain sq snaps) i,
    target := (targetCol (midCol snaps)).getD i none }

/-- Whether training row `i` survives `drop_nulls()`: at that point the
frame still carries the nullable `returns`, `volatility_5m`,
`future_return_5m` and `target` columns (NaNs from zero-size divisions are
floats, not nulls, and are not dropped). -/
def keepTrain (snaps : List Snap) (i : ℕ) : Bool :=
  (colAt (returnsCol (midCol snaps)) i).isSome &&
  (colAt (volColTrain (fun q => q) snaps) i).isSome &&
  (colAt (futureRetCol (midCol snaps)) i).isSome

/-- `compute_features(df, inference=False)`: features, target, then
`drop_nulls()` and the column selection. -/
def computeFeaturesTrain (sq : ℚ → ℚ) (snaps : List Snap) : List FeatureRow :=
  ((List.range snaps.length).filter (keepTrain snaps)).map (rowTrain sq snaps)

/-- The output row built from snapshot `i` in inference mode (after the
branch's `fill_null(0)`; `target` is never created). -/
def rowInfer (sq : ℚ → ℚ) (snaps : List Snap) (i : ℕ) : FeatureRow :=
  let s := snaps.getD i default
  { ts := s.ts, bid_px := s.bid_px, ask_px := s.ask_px,
    bid_sz := s.bid_sz, ask_sz := s.ask_sz,
    mid_price := midPrice s, spread := spreadOf s,
    imbalance_1 := imbalance s, wmp := wmp s,
    volatility_5m := colAt (volColInfer sq snaps) i,
    target := none }

/-- `compute_features(df, inference=True)`: no row is dropped; one output
row per input row. -/
def computeFeaturesInfer (sq : ℚ → ℚ) (snaps : List Snap) : List FeatureRow :=
  (List.range snaps.length).map (rowInfer sq snaps)

/-- `LiveEngine.process_snapshot`: the single received book snapshot is
wrapped into a one-row frame and passed to
`compute_features(df, inference=True)` (the trailing `fill_null(0)` of
`process_snapshot` is a no-op on the already-filled volatility column). -/
def processSnapshot (sq : ℚ → ℚ) (s : Snap) : List FeatureRow :=
  computeFeaturesInfer sq [s]

example :
    (processSnapshot (fun q => q) ⟨0, 10, 11, 2, 3⟩).map FeatureRow.volatility_5m
      = [some 0] := by
  norm_num [processSnapshot, computeFeaturesInfer, rowInfer, volColInfer, rollingStdCol,
    returnsCol, midCol, colAt, windowAt, List.range_succ]

/-! ## Helper lemmas about one simulation step -/

/-- The mark-to-market value the loop records for state `s` at row `r`. -/
def mtm (s : SimState) (r : Row) : ℚ :=
  s.cash + (if s.holdings > 0 then s.holdings * r.bid_px else 0)

theorem step_buy (s : SimState) (r : Row) (hpos : s.position = 0)
    (hprob : buy_threshold < r.prob) :
    step s r =
      { s with
        cash := s.cash - (s.cash * (99 / 100) / r.ask_px * r.ask_px +
          s.cash * (99 / 100) / r.ask_px * r.ask_px * fee_rate)
        holdings := s.cash * (99 / 100) / r.ask_px
        position := 1
        entry_price := r.ask_px
        entry_time := r.ts
        size := s.cash * (99 / 100) / r.ask_px
        trades := s.trades ++
          [{ side := .BUY, price := r.ask_px,
             size := some (s.cash * (99 / 100) / r.ask_px), time := r.ts,
             fee := some (s.cash * (99 / 100) / r.ask_px * r.ask_px * fee_rate),
             pnl := none, reason := none }]
        equity_curve := s.equity_curve ++ [⟨r.ts, mtm s r⟩] } := by
  simp only [step, mtm, hpos, if_pos, gt_iff_lt, hprob, if_true]

theorem step_hold_flat (s : SimState) (r : Row) (hpos : s.position = 0)
    (hprob : ¬ buy_threshold < r.prob) :
    step s r = { s with equity_curve := s.equity_curve ++ [⟨r.ts, mtm s r⟩] } := by
  simp only [step, mtm, hpos, if_pos, gt_iff_lt, hprob, if_false]

theorem step_sell (s : SimState) (r : Row) (rsn : String) (hpos : s.position ≠ 0)
    (hrsn : exitReason s.entry_price s.entry_time r = some rsn) :
    step s r =
      { s with
        cash := s.cash + (s.holdings * r.bid_px - s.holdings * r.bid_px * fee_rate)
        holdings := 0
        position := 0
        trades := s.trades ++
          [{ side := .SELL, price := r.bid_px, size := some 0, time := r.ts,
             fee := some (s.holdings * r.bid_px * fee_rate),
             pnl := some (s.holdings * r.bid_px - s.holdings * r.bid_px * fee_rate -
               (s.entry_price * s.size + s.entry_price * s.size * fee_rate)),
             reason := some rsn }]
        equity_curve := s.equity_curve ++ [⟨r.ts, mtm s r⟩] } := by
  simp only [step, mtm, hpos, if_neg, if_false, hrsn]

theorem step_hold_long (s : SimState) (r : Row) (hpos : s.position ≠ 0)
    (hrsn : exitReason s.entry_price s.entry_time r = none) :
    step s r = { s with equity_curve := s.equity_curve ++ [⟨r.ts, mtm s r⟩] } := by
  simp only [step, mtm, hpos, if_neg, if_false, hrsn]


/-! ## Claim theorems -/

/-- C1: for every LONG position state and every input row, the exit decision
evaluates the four exit rules in the fixed priority order take-profit
(`(bid − entry)/entry ≥ 0.01`), stop-loss (`≤ −0.005`), max holding time
(`≥ 5` minutes), signal reversal (`probability < 0.4`); the first true rule
determines the recorded exit reason (and in particular any row satisfying
the take-profit condition — hence also any row satisfying both take-profit
and stop-loss — records "TP"). -/
theorem exit_priority_order (s : SimState) (r : Row) (hpos : s.position = 1) :
    (((r.bid_px - s.entry_price) / s.entry_price ≥ 1 / 100 →
        exitReason s.entry_price s.entry_time r = some "TP")
    ∧ ((r.bid_px - s.entry_price) / s.entry_price ≥ 1 / 100 →
        (r.bid_px - s.entry_price) / s.entry_price ≤ -(5 / 1000) →
        exitReason s.entry_price s.entry_time r = some "TP")
    ∧ ((r.bid_px - s.entry_price) / s.entry_price < 1 / 100 →
        (r.bid_px - s.entry_price) / s.entry_price ≤ -(5 / 1000) →
        exitReason s.entry_price s.entry_time r = some "SL")
    ∧ ((r.bid_px - s.entry_price) / s.entry_price < 1 / 100 →
        -(5 / 1000) < (r.bid_px - s.entry_price) / s.entry_price →
        r.ts - s.entry_time ≥ 300000 →
        exitReason s.entry_price s.entry_time r = some "Time")
    ∧ ((r.bid_px - s.entry_price) / s.entry_price < 1 / 100 →
        -(5 / 1000) < (r.bid_px - s.entry_price) / s.entry_price →
        r.ts - s.entry_time < 300000 →
        r.prob < 4 / 10 →
        exitReason s.entry_price s.entry_time r = some "Signal")
    ∧ ((r.bid_px - s.entry_price) / s.entry_price < 1 / 100 →
        -(5 / 1000) < (r.bid_px - s.entry_price) / s.entry_price →
        r.ts - s.entry_time < 300000 →
        ¬ r.prob < 4 / 10 →
        exitReason s.entry_price s.entry_time r = none)
    ∧ (∀ rsn, exitReason s.entry_price s.entry_time r = some rsn →
        ∃ t, (step s r).trades = s.trades ++ [t] ∧ t.reason = some rsn)) := by
  refine ⟨?_, ?_, ?_, ?_, ?_, ?_, ?_⟩
  · intro h
    simp only [exitReason, take_profit]
    rw [if_pos h]
  · intro h _
    simp only [exitReason, take_profit]
    rw [if_pos h]
  · intro h1 h2
    simp only [exitReason, take_profit, stop_loss]
    rw [if_neg (by linarith), if_pos (by linarith)]
  · intro h1 h2 h3
    simp only [exitReason, take_profit, stop_loss, max_hold_time]
    rw [if_neg (by linarith), if_neg (by linarith), if_pos h3]
  · intro h1 h2 h3 h4
    simp only [exitReason, take_profit, stop_loss, max_hold_time]
    rw [if_neg (by linarith), if_neg (by linarith), if_neg (by omega), if_pos h4]
  · intro h1 h2 h3 h4
    simp only [exitReason, take_profit, stop_loss, max_hold_time]
    rw [if_neg (by linarith), if_neg (by linarith), if_neg (by omega), if_neg h4]
  · intro rsn hrsn
    rw [step_sell s r rsn (by omega) hrsn]
    exact ⟨_, rfl, rfl⟩

/-- Witness for C1 at a concrete long state and row: entry 100, bid 101,
so the take-profit proportion is exactly the 1% threshold. -/
theorem exit_priority_order_witness :
    ((101 - 100 : ℚ) / 100 ≥ 1 / 100)
    ∧ exitReason 100 0 ⟨0, 101, 1011 / 10, 1 / 2⟩ = some "TP" :=
  ⟨by norm_num,
    (exit_priority_order ⟨1, 100, 0, 0, 99, 99, [], []⟩ ⟨0, 101, 1011 / 10, 1 / 2⟩ rfl).1
      (by norm_num)⟩

/-- C2: every ENTER_LONG fill from a FLAT state with cash `c` and ask `a > 0`
buys size `(c × 0.99) / a`, pays fee `size × a × 0.00025`, decreases cash by
exactly notional + fee (`notional = size × a`), sets holdings to the bought
size, and moves the position state to LONG with `entry_price = a` and
`entry_time` the row's timestamp. -/
theorem enter_long_fill (s : SimState) (r : Row) (hpos : s.position = 0)
    (ha : 0 < r.ask_px) (hprob : 6 / 10 < r.prob) :
    (step s r).holdings = s.cash * (99 / 100) / r.ask_px
    ∧ (step s r).cash =
        s.cash - ((step s r).holdings * r.ask_px +
          (step s r).holdings * r.ask_px * (25 / 100000))
    ∧ (step s r).position = 1
    ∧ (step s r).entry_price = r.ask_px
    ∧ (step s r).entry_time = r.ts
    ∧ (step s r).trades = s.trades ++
        [{ side := .BUY, price := r.ask_px,
           size := some (s.cash * (99 / 100) / r.ask_px), time := r.ts,
           fee := some ((s.cash * (99 / 100) / r.ask_px) * r.ask_px * (25 / 100000)),
           pnl := none, reason := none }] := by
  rw [step_buy s r hpos (by simpa [buy_threshold] using hprob)]
  refine ⟨rfl, ?_, rfl, rfl, rfl, ?_⟩
  · simp only [fee_rate]
  · simp only [fee_rate]

/-- Witness for C2: the concrete entry fill from `initState 10000` at ask 100
(probability 0.8): holdings become 99 and the position turns LONG. -/
theorem enter_long_fill_witness :
    ((initState 10000).position = 0 ∧ (0 : ℚ) < 100 ∧ (6 / 10 : ℚ) < 8 / 10)
    ∧ (step (initState 10000) ⟨0, 999 / 10, 100, 8 / 10⟩).holdings = 10000 * (99 / 100) / 100
    ∧ (step (initState 10000) ⟨0, 999 / 10, 100, 8 / 10⟩).position = 1 :=
  ⟨⟨rfl, by norm_num, by norm_num⟩,
    (enter_long_fill (initState 10000) ⟨0, 999 / 10, 100, 8 / 10⟩ rfl
      (by norm_num) (by norm_num)).1,
    (enter_long_fill (initState 10000) ⟨0, 999 / 10, 100, 8 / 10⟩ rfl
      (by norm_num) (by norm_num)).2.2.1⟩

/-- C10: the EquityPoint appended for a row is computed from the portfolio
state as it stood before that row's own fill: on an ENTER_LONG row from a
flat state (flat holdings being 0), the recorded equity is the pre-buy cash,
and on an EXIT row the recorded equity still marks the open position at that
row's bid even though the fill zeroes the holdings. -/
theorem equity_marked_before_fill (s : SimState) (r : Row) :
    ((s.position = 0 → s.holdings = 0 → 6 / 10 < r.prob →
        (step s r).equity_curve = s.equity_curve ++ [⟨r.ts, s.cash⟩]
        ∧ (step s r).holdings = s.cash * (99 / 100) / r.ask_px)
    ∧ (∀ rsn, s.position = 1 → 0 < s.holdings →
        exitReason s.entry_price s.entry_time r = some rsn →
        (step s r).equity_curve = s.equity_curve ++ [⟨r.ts, s.cash + s.holdings * r.bid_px⟩]
        ∧ (step s r).holdings = 0)) := by
  constructor
  · intro hpos hhold hprob
    rw [step_buy s r hpos (by simpa [buy_threshold] using hprob)]
    constructor
    · simp [mtm, hhold]
    · rfl
  · intro rsn hpos hhold hrsn
    rw [step_sell s r rsn (by omega) hrsn]
    constructor
    · simp [mtm, hhold]
    · rfl

/-- Witness for C10 at the concrete flat start: the first row's equity point
records the initial 10000 even though the row's own BUY fill spends fees. -/
theorem equity_marked_before_fill_witness :
    ((initState 10000).position = 0 ∧ (initState 10000).holdings = 0
      ∧ (6 / 10 : ℚ) < 8 / 10)
    ∧ (step (initState 10000) ⟨0, 999 / 10, 100, 8 / 10⟩).equity_curve = [⟨0, 10000⟩] :=
  ⟨⟨rfl, rfl, by norm_num⟩, by
    have h := (equity_marked_before_fill (initState 10000)
      ⟨0, 999 / 10, 100, 8 / 10⟩).1 rfl rfl (by norm_num)
    simpa [initState] using h.1⟩

/-- C6 counterexample: on the single-row input with cash 10000, ask 100, bid
99.9 and probability 0.8 the executed ENTER_LONG has size 99 — not 98.01 —
fee 2.475 — not 2.45025 — and leaves cash 97.525 — not 196.54975.  (The
spec's arithmetic slip: `(10000 × 0.99)/100 = 99`.) -/
theorem concrete_scenario_cex :
    (simLoop [⟨0, 999 / 10, 100, 8 / 10⟩] 10000).trades.map Trade.size = [some 99]
    ∧ (simLoop [⟨0, 999 / 10, 100, 8 / 10⟩] 10000).trades.map Trade.fee = [some (99 / 40)]
    ∧ (simLoop [⟨0, 999 / 10, 100, 8 / 10⟩] 10000).cash = 3901 / 40
    ∧ (99 : ℚ) ≠ 9801 / 100
    ∧ (99 / 40 : ℚ) ≠ 245025 / 100000
    ∧ (3901 / 40 : ℚ) ≠ 19654975 / 100000 := by
  norm_num [simLoop, step, initState, buy_threshold, fee_rate]

/-- C6 amended: on the single-row input with cash 10000, ask 100, bid 99.9
and probability 0.8, the simulator executes ENTER_LONG with size
`(10000 × 0.99)/100 = 99`, fee `99 × 100 × 0.00025 = 2.475`, and cash after
the fill `10000 − 9900 − 2.475 = 97.525`. -/
theorem concrete_scenario_fill :
    (simLoop [⟨0, 999 / 10, 100, 8 / 10⟩] 10000).trades
      = [{ side := .BUY, price := 100, size := some 99, time := 0,
           fee := some (99 / 40), pnl := none, reason := none }]
    ∧ (simLoop [⟨0, 999 / 10, 100, 8 / 10⟩] 10000).cash = 97525 / 1000 := by
  norm_num [simLoop, step, initState, buy_threshold, fee_rate]

/-- C3: on a buy-then-take-profit run, the SELL dict's `size` key records 0
(it reads `holdings` after the same step zeroed it — the source itself
comments "this is 0 now, should log previous size") although the holdings
sold were 99; the recorded `pnl` does equal
`(sell_notional − sell_fee) − (buy_notional + buy_fee)` of the stored entry
fill, because the leaked loop local `size` still holds the entry size. -/
theorem sell_trade_size_zero_bug :
    (simLoop [⟨0, 999 / 10, 100, 8 / 10⟩] 10000).holdings = 99
    ∧ (runBacktest [⟨0, 999 / 10, 100, 8 / 10⟩, ⟨1000, 101, 1011 / 10, 8 / 10⟩] 10000).trades.map
        Trade.size = [some 99, some 0]
    ∧ (99 : ℚ) ≠ 0
    ∧ (runBacktest [⟨0, 999 / 10, 100, 8 / 10⟩, ⟨1000, 101, 1011 / 10, 8 / 10⟩] 10000).trades.map
        Trade.pnl =
        [none, some ((99 * 101 - 99 * 101 * (25 / 100000)) -
          (99 * 100 + 99 * 100 * (25 / 100000)))] := by
  norm_num [runBacktest, simLoop, step, initState, finalClose, exitReason,
    buy_threshold, fee_rate, take_profit, stop_loss, max_hold_time]

/-- C4 counterexample: on the single-row input that enters LONG, the
end-of-sequence close leaves `position = 1` (not FLAT) and `holdings = 99`
(not zeroed), and the appended forced-exit dict carries no `fee` key and the
reason string "End", not "END". -/
theorem final_close_not_flat_cex :
    (runBacktest [⟨0, 999 / 10, 100, 8 / 10⟩] 10000).position = 1
    ∧ (runBacktest [⟨0, 999 / 10, 100, 8 / 10⟩] 10000).holdings = 99
    ∧ (runBacktest [⟨0, 999 / 10, 100, 8 / 10⟩] 10000).trades.map Trade.fee
        = [some (99 / 40), none]
    ∧ (runBacktest [⟨0, 999 / 10, 100, 8 / 10⟩] 10000).trades.map Trade.reason
        = [none, some "End"]
    ∧ "End" ≠ "END" := by
  norm_num [runBacktest, simLoop, step, initState, finalClose,
    buy_threshold, fee_rate]
  decide

/-- C4 amended: on every non-empty row sequence that finishes the loop still
LONG, a forced SELL at the last row's bid with reason "End" is appended and
cash increases by revenue − fee at the same fee rate; but the appended dict
carries no size/fee/pnl keys, the equity curve gets no extra point, and
holdings and position are left unmodified (the final position state remains
LONG, not FLAT). -/
theorem final_close_end_fill (rows : List Row) (c : ℚ) (hne : rows ≠ [])
    (hlong : (simLoop rows c).position = 1) :
    (runBacktest rows c).cash = (simLoop rows c).cash +
      ((simLoop rows c).holdings * (rows.getLast hne).bid_px -
        (simLoop rows c).holdings * (rows.getLast hne).bid_px * (25 / 100000))
    ∧ (runBacktest rows c).trades = (simLoop rows c).trades ++
        [{ side := .SELL, price := (rows.getLast hne).bid_px, size := none,
           time := (rows.getLast hne).ts, fee := none, pnl := none,
           reason := some "End" }]
    ∧ (runBacktest rows c).position = 1
    ∧ (runBacktest rows c).holdings = (simLoop rows c).holdings
    ∧ (runBacktest rows c).equity_curve = (simLoop rows c).equity_curve := by
  have hget : rows.getLast? = some (rows.getLast hne) := List.getLast?_eq_getLast rows hne
  simp only [runBacktest, finalClose, hlong, if_pos, hget, fee_rate]
  exact ⟨trivial, trivial, trivial, trivial, trivial⟩

/-- Witness for the amended C4 on the concrete single-row run. -/
theorem final_close_end_fill_witness :
    (([⟨0, 999 / 10, 100, 8 / 10⟩] : List Row) ≠ []
      ∧ (simLoop [⟨0, 999 / 10, 100, 8 / 10⟩] 10000).position = 1)
    ∧ (runBacktest [⟨0, 999 / 10, 100, 8 / 10⟩] 10000).holdings
        = (simLoop [⟨0, 999 / 10, 100, 8 / 10⟩] 10000).holdings :=
  ⟨⟨by simp, by norm_num [simLoop, step, initState, buy_threshold, fee_rate]⟩,
    (final_close_end_fill [⟨0, 999 / 10, 100, 8 / 10⟩] 10000 (by simp)
      (by norm_num [simLoop, step, initState, buy_threshold, fee_rate])).2.2.2.1⟩

/-- C8: the simulation is a deterministic function of the row sequence and
the initial cash — two runs on equal inputs produce identical equity curves
and identical trade ledgers (the embedding is a pure function of its
arguments; the source loop reads no state other than its row inputs and its
own accumulators). -/
theorem simulator_deterministic (rows₁ rows₂ : List Row) (c₁ c₂ : ℚ)
    (hr : rows₁ = rows₂) (hc : c₁ = c₂) :
    (runBacktest rows₁ c₁).equity_curve = (runBacktest rows₂ c₂).equity_curve
    ∧ (runBacktest rows₁ c₁).trades = (runBacktest rows₂ c₂).trades := by
  subst hr
  subst hc
  exact ⟨rfl, rfl⟩

/-- Witness for C8 on a concrete one-row input. -/
theorem simulator_deterministic_witness :
    (([⟨0, 999 / 10, 100, 8 / 10⟩] : List Row) = [⟨0, 999 / 10, 100, 8 / 10⟩]
      ∧ (10000 : ℚ) = 10000)
    ∧ (runBacktest [⟨0, 999 / 10, 100, 8 / 10⟩] 10000).trades
        = (runBacktest [⟨0, 999 / 10, 100, 8 / 10⟩] 10000).trades :=
  ⟨⟨rfl, rfl⟩,
    (simulator_deterministic [⟨0, 999 / 10, 100, 8 / 10⟩]
      [⟨0, 999 / 10, 100, 8 / 10⟩] 10000 10000 rfl rfl).2⟩

/-! ## The equity curve as a function of the run prefix -/

theorem step_equity_curve (s : SimState) (r : Row) :
    (step s r).equity_curve = s.equity_curve ++ [⟨r.ts, mtm s r⟩] := by
  by_cases h0 : s.position = 0
  · by_cases hp : buy_threshold < r.prob
    · rw [step_buy s r h0 hp]
    · rw [step_hold_flat s r h0 hp]
  · cases hrsn : exitReason s.entry_price s.entry_time r with
    | none => rw [step_hold_long s r h0 hrsn]
    | some rsn => rw [step_sell s r rsn h0 hrsn]

/-- The equity points the loop appends while folding `rows` from state `s`. -/
def curveOf (s : SimState) : List Row → List EquityPoint
  | [] => []
  | r :: rs => ⟨r.ts, mtm s r⟩ :: curveOf (step s r) rs

theorem foldl_equity_curve (rows : List Row) (s : SimState) :
    (rows.foldl step s).equity_curve = s.equity_curve ++ curveOf s rows := by
  induction rows generalizing s with
  | nil => simp [curveOf]
  | cons r rs ih =>
    rw [List.foldl_cons, ih (step s r), step_equity_curve, curveOf,
      List.append_assoc, List.singleton_append]

theorem curveOf_length (rows : List Row) (s : SimState) :
    (curveOf s rows).length = rows.length := by
  induction rows generalizing s with
  | nil => rfl
  | cons r rs ih => simp [curveOf, ih]

theorem curveOf_get? (rows : List Row) (s : SimState) (i : ℕ) :
    (curveOf s rows).get? i =
      (rows.get? i).map (fun r => ⟨r.ts, mtm ((rows.take i).foldl step s) r⟩) := by
  induction rows generalizing s i with
  | nil => simp [curveOf]
  | cons r rs ih =>
    cases i with
    | zero => simp [curveOf]
    | succ j => simpa [curveOf, List.take_succ_cons] using ih (step s r) j

/-- The loop invariant: cash and holdings stay non-negative, and a flat
position holds nothing. -/
def GoodState (s : SimState) : Prop :=
  0 ≤ s.cash ∧ 0 ≤ s.holdings ∧ (s.position = 0 → s.holdings = 0)

theorem step_good (s : SimState) (r : Row) (ha : 0 < r.ask_px)
    (hb : 0 ≤ r.bid_px) (hs : GoodState s) : GoodState (step s r) := by
  obtain ⟨hc, hh, hf⟩ := hs
  by_cases h0 : s.position = 0
  · by_cases hp : buy_threshold < r.prob
    · rw [step_buy s r h0 hp]
      have hq : s.cash * (99 / 100) / r.ask_px * r.ask_px = s.cash * (99 / 100) :=
        div_mul_cancel₀ _ (ne_of_gt ha)
      refine ⟨?_, ?_, ?_⟩
      · simp only [hq, fee_rate]
        nlinarith
      · exact div_nonneg (by nlinarith) ha.le
      · intro h
        simp at h
    · rw [step_hold_flat s r h0 hp]
      exact ⟨hc, hh, hf⟩
  · cases hrsn : exitReason s.entry_price s.entry_time r with
    | none =>
      rw [step_hold_long s r h0 hrsn]
      exact ⟨hc, hh, hf⟩
    | some rsn =>
      rw [step_sell s r rsn h0 hrsn]
      refine ⟨?_, le_refl 0, fun _ => rfl⟩
      simp only [fee_rate]
      nlinarith [mul_nonneg hh hb]

theorem foldl_good (rows : List Row) (s : SimState)
    (hrows : ∀ r ∈ rows, 0 < r.ask_px ∧ 0 ≤ r.bid_px) (hs : GoodState s) :
    GoodState (rows.foldl step s) := by
  induction rows generalizing s with
  | nil => exact hs
  | cons r rs ih =>
    rw [List.foldl_cons]
    exact ih (step s r) (fun x hx => hrows x (List.mem_cons_of_mem r hx))
      (step_good s r (hrows r (List.mem_cons_self r rs)).1
        (hrows r (List.mem_cons_self r rs)).2 hs)

theorem finalClose_equity_curve (rows : List Row) (s : SimState) :
    (finalClose rows s).equity_curve = s.equity_curve := by
  unfold finalClose
  split
  · split <;> rfl
  · rfl

/-- C5: the simulator appends exactly one EquityPoint per processed row
(the curve is as long as the input), and — for inputs with positive asks and
non-negative bids and non-negative initial cash — each point's value is
`cash + holdings × current bid` of the state at which that row was
processed, the holdings term contributing 0 whenever the position is flat
(a flat state holds 0). -/
theorem equity_curve_spec (rows : List Row) (c : ℚ) (hc : 0 ≤ c)
    (hrows : ∀ r ∈ rows, 0 < r.ask_px ∧ 0 ≤ r.bid_px) :
    (runBacktest rows c).equity_curve.length = rows.length
    ∧ ∀ i, i < rows.length →
        ((stateBefore rows c i).position = 0 → (stateBefore rows c i).holdings = 0)
        ∧ (runBacktest rows c).equity_curve.get? i =
            (rows.get? i).map (fun r =>
              ⟨r.ts, (stateBefore rows c i).cash +
                (stateBefore rows c i).holdings * r.bid_px⟩) := by
  have hcurve : (runBacktest rows c).equity_curve = curveOf (initState c) rows := by
    rw [runBacktest, finalClose_equity_curve, simLoop, foldl_equity_curve]
    rfl
  have hgood : ∀ i, GoodState (stateBefore rows c i) := by
    intro i
    exact foldl_good (rows.take i) (initState c)
      (fun r hr => hrows r (List.take_subset i rows hr))
      ⟨hc, le_refl 0, fun _ => rfl⟩
  constructor
  · rw [hcurve, curveOf_length]
  · intro i hi
    refine ⟨(hgood i).2.2, ?_⟩
    rw [hcurve, curveOf_get? rows (initState c) i]
    have hsb : (rows.take i).foldl step (initState c) = stateBefore rows c i := rfl
    rw [hsb]
    have hmtm : (fun r : Row => (⟨r.ts, mtm (stateBefore rows c i) r⟩ : EquityPoint)) =
        fun r : Row => ⟨r.ts, (stateBefore rows c i).cash +
          (stateBefore rows c i).holdings * r.bid_px⟩ := by
      funext r
      unfold mtm
      rcases lt_or_eq_of_le (hgood i).2.1 with hlt | heq
      · rw [if_pos hlt]
      · rw [if_neg (by rw [← heq]; exact lt_irrefl 0), ← heq]
        ring_nf
    rw [hmtm]

/-- Witness for C5 on the concrete one-row run: one equity point, marking
the flat starting state at 10000. -/
theorem equity_curve_spec_witness :
    ((0 : ℚ) ≤ 10000
      ∧ (∀ r ∈ ([⟨0, 999 / 10, 100, 8 / 10⟩] : List Row), 0 < r.ask_px ∧ 0 ≤ r.bid_px))
    ∧ (runBacktest [⟨0, 999 / 10, 100, 8 / 10⟩] 10000).equity_curve.length = 1 :=
  ⟨⟨by norm_num, by
      intro r hr
      simp only [List.mem_singleton] at hr
      subst hr
      norm_num⟩,
    (equity_curve_spec [⟨0, 999 / 10, 100, 8 / 10⟩] 10000 (by norm_num)
      (by
        intro r hr
        simp only [List.mem_singleton] at hr
        subst hr
        norm_num)).1⟩

/-! ## Helper lemmas about the feature columns -/

theorem length_returnsCol (ms : List ℚ) : (returnsCol ms).length = ms.length := by
  cases ms with
  | nil => rfl
  | cons m t =>
    simp only [returnsCol, List.tail_cons, List.length_cons, List.length_map, List.length_zip]
    omega

theorem returnsCol_get_some (ms : List ℚ) (i : ℕ) (h1 : 1 ≤ i) (h2 : i < ms.length) :
    ∃ q, (returnsCol ms).get? i = some (some q) := by
  cases ms with
  | nil => simp at h2
  | cons m t =>
    obtain ⟨j, rfl⟩ : ∃ j, i = j + 1 := ⟨i - 1, by omega⟩
    have hj : j < ((m :: t).zip t).length := by
      simp only [List.length_zip, List.length_cons]
      simp only [List.length_cons] at h2
      omega
    have hget := List.get?_eq_get hj
    refine ⟨(((m :: t).zip t).get ⟨j, hj⟩).2 / (((m :: t).zip t).get ⟨j, hj⟩).1 - 1, ?_⟩
    simp only [returnsCol, List.tail_cons, List.get?_cons_succ, List.get?_map, hget]
    rfl

theorem windowAt_get (xs : List (Option ℚ)) (i : ℕ) (h : i < xs.length) :
    (windowAt xs i).get? (i - (i + 1 - 5)) = xs.get? i := by
  unfold windowAt
  rw [List.get?_drop]
  have heq : (i + 1 - 5) + (i - (i + 1 - 5)) = i := by omega
  rw [heq]
  exact List.get?_take (by omega)

theorem windowAt_length_le (xs : List (Option ℚ)) (i : ℕ) :
    (windowAt xs i).length ≤ 5 := by
  unfold windowAt
  simp only [List.length_drop, List.length_take]
  omega

theorem vals_length_le (xs : List (Option ℚ)) (i : ℕ) :
    ((windowAt xs i).filterMap id).length ≤ 5 :=
  le_trans (List.length_filterMap_le id _) (windowAt_length_le xs i)

theorem vals_mem_of_entry (xs : List (Option ℚ)) (i : ℕ) (q : ℚ)
    (h : i < xs.length) (hq : xs.get? i = some (some q)) :
    q ∈ (windowAt xs i).filterMap id := by
  have hw : (windowAt xs i).get? (i - (i + 1 - 5)) = some (some q) := by
    rw [windowAt_get xs i h, hq]
  exact List.mem_filterMap.mpr ⟨some q, List.get?_mem hw, rfl⟩

theorem colAt_rollingStd (sq : ℚ → ℚ) (minp : ℕ) (xs : List (Option ℚ)) (i : ℕ)
    (h : i < xs.length) :
    colAt (rollingStdCol sq minp xs) i =
      if minp ≤ ((windowAt xs i).filterMap id).length
      then some (sq (sampleVar ((windowAt xs i).filterMap id)))
      else none := by
  unfold colAt rollingStdCol
  rw [List.get?_map, List.get?_range h]
  rfl

theorem colAt_rollingStd_none (sq : ℚ → ℚ) (minp : ℕ) (xs : List (Option ℚ)) (i : ℕ)
    (h : ¬ i < xs.length) :
    colAt (rollingStdCol sq minp xs) i = none := by
  unfold colAt rollingStdCol
  rw [List.get?_eq_none.mpr]
  · rfl
  · simp only [List.length_map, List.length_range]
    omega

theorem length_midCol (snaps : List Snap) : (midCol snaps).length = snaps.length := by
  simp [midCol]

/-- What survival of `drop_nulls` forces: a kept training row sits at index
at least 5 and its volatility window holds exactly 5 return samples. -/
theorem keepTrain_spec (snaps : List Snap) (i : ℕ) (hk : keepTrain snaps i = true) :
    5 ≤ i ∧ i < snaps.length
    ∧ ((windowAt (returnsCol (midCol snaps)) i).filterMap id).length = 5 := by
  unfold keepTrain at hk
  simp only [Bool.and_eq_true] at hk
  obtain ⟨⟨hret, hvol⟩, hfut⟩ := hk
  have hxslen : (returnsCol (midCol snaps)).length = snaps.length := by
    rw [length_returnsCol, length_midCol]
  by_cases hi : i < (returnsCol (midCol snaps)).length
  · have hcol := colAt_rollingStd (fun q => q) 5 (returnsCol (midCol snaps)) i hi
    unfold volColTrain at hvol
    rw [hcol] at hvol
    by_cases h5 : 5 ≤ ((windowAt (returnsCol (midCol snaps)) i).filterMap id).length
    · refine ⟨?_, by omega, le_antisymm (vals_length_le _ _) h5⟩
      by_contra hlt
      push_neg at hlt
      -- for i < 5 the window starts at the head of the returns column,
      -- which is the null first return; so at most i samples exist
      obtain ⟨m, t, hms⟩ : ∃ m t, midCol snaps = m :: t := by
        cases hcase : midCol snaps with
        | nil =>
          exfalso
          have h0 := length_midCol snaps
          rw [hcase] at h0
          simp only [List.length_nil] at h0
          omega
        | cons m t => exact ⟨m, t, rfl⟩
      have hwin : windowAt (returnsCol (midCol snaps)) i =
          none :: (((m :: t).zip t).map (fun p => some (p.2 / p.1 - 1))).take i := by
        unfold windowAt
        have h0 : i + 1 - 5 = 0 := by omega
        rw [h0, List.drop_zero, hms]
        simp only [returnsCol, List.tail_cons, List.take_succ_cons]
      rw [hwin] at h5
      have hcons : List.filterMap id
            ((none : Option ℚ) ::
              (((m :: t).zip t).map (fun p => some (p.2 / p.1 - 1))).take i)
          = List.filterMap id
              ((((m :: t).zip t).map (fun p => some (p.2 / p.1 - 1))).take i) := by
        simp
      rw [hcons] at h5
      have hle := le_trans (List.length_filterMap_le id _)
        (List.length_take_le i (((m :: t).zip t).map (fun p => some (p.2 / p.1 - 1))))
      omega
    · rw [if_neg h5] at hvol
      simp at hvol
  · unfold volColTrain at hvol
    rw [colAt_rollingStd_none (fun q => q) 5 _ i hi] at hvol
    simp at hvol

theorem rollingStd_get? (sq : ℚ → ℚ) (minp : ℕ) (xs : List (Option ℚ)) (i : ℕ)
    (h : i < xs.length) :
    (rollingStdCol sq minp xs).get? i =
      some (if minp ≤ ((windowAt xs i).filterMap id).length
        then some (sq (sampleVar ((windowAt xs i).filterMap id)))
        else none) := by
  unfold rollingStdCol
  rw [List.get?_map, List.get?_range h]
  rfl

theorem colAt_volColInfer_pos (sq : ℚ → ℚ) (snaps : List Snap) (i : ℕ)
    (h : i < (returnsCol (midCol snaps)).length)
    (hv : 1 ≤ ((windowAt (returnsCol (midCol snaps)) i).filterMap id).length) :
    colAt (volColInfer sq snaps) i =
      some (sq (sampleVar ((windowAt (returnsCol (midCol snaps)) i).filterMap id))) := by
  unfold volColInfer colAt
  rw [List.get?_map, rollingStd_get? sq 1 _ i h, if_pos hv]
  rfl

theorem colAt_volColInfer_zero (sq : ℚ → ℚ) (snaps : List Snap) (i : ℕ)
    (h : i < (returnsCol (midCol snaps)).length)
    (hv : ((windowAt (returnsCol (midCol snaps)) i).filterMap id).length = 0) :
    colAt (volColInfer sq snaps) i = some 0 := by
  unfold volColInfer colAt
  rw [List.get?_map, rollingStd_get? sq 1 _ i h, if_neg (by omega)]
  rfl

/-- C7: rolling-volatility semantics of the two modes of
`compute_features` and of the live single-snapshot path.  In TRAIN mode the
volatility at a surviving row is the (sample) standard deviation of the 5
trailing returns, and every row whose trailing window lacks 5 returns is
dropped by `drop_nulls`.  In INFER mode no row is dropped (one output row
per input row); at any row with at least 1 trailing return sample the
volatility is computed from the available samples of the trailing window,
and where no sample exists the value 0 is substituted — in particular the
single-row streaming invocation with an empty history buffer yields
volatility 0 instead of raising. -/
theorem volatility_mode_semantics (sq : ℚ → ℚ) (snaps : List Snap) :
    ((∀ i, keepTrain snaps i = true →
        5 ≤ i
        ∧ ((windowAt (returnsCol (midCol snaps)) i).filterMap id).length = 5
        ∧ colAt (volColTrain sq snaps) i =
            some (sq (sampleVar ((windowAt (returnsCol (midCol snaps)) i).filterMap id))))
    ∧ (∀ fr ∈ computeFeaturesTrain sq snaps,
        ∃ i, keepTrain snaps i = true ∧ 5 ≤ i ∧ fr = rowTrain sq snaps i)
    ∧ (computeFeaturesInfer sq snaps).length = snaps.length
    ∧ (∀ i, i < snaps.length → 1 ≤ i →
        1 ≤ ((windowAt (returnsCol (midCol snaps)) i).filterMap id).length
        ∧ (rowInfer sq snaps i).volatility_5m =
            some (sq (sampleVar ((windowAt (returnsCol (midCol snaps)) i).filterMap id))))
    ∧ (∀ i, i < snaps.length →
        ((windowAt (returnsCol (midCol snaps)) i).filterMap id).length = 0 →
        (rowInfer sq snaps i).volatility_5m = some 0)
    ∧ (∀ s₀ : Snap, (processSnapshot sq s₀).map FeatureRow.volatility_5m = [some 0])) := by
  have hxslen : (returnsCol (midCol snaps)).length = snaps.length := by
    rw [length_returnsCol, length_midCol]
  refine ⟨?_, ?_, ?_, ?_, ?_, ?_⟩
  · intro i hk
    obtain ⟨h5i, hilen, hlen5⟩ := keepTrain_spec snaps i hk
    refine ⟨h5i, hlen5, ?_⟩
    unfold volColTrain
    rw [colAt_rollingStd sq 5 _ i (by omega), if_pos (by omega)]
  · intro fr hfr
    unfold computeFeaturesTrain at hfr
    obtain ⟨i, hi, rfl⟩ := List.mem_map.mp hfr
    obtain ⟨hirange, hkeep⟩ := List.mem_filter.mp hi
    exact ⟨i, hkeep, (keepTrain_spec snaps i hkeep).1, rfl⟩
  · simp [computeFeaturesInfer]
  · intro i hi h1
    obtain ⟨q, hq⟩ := returnsCol_get_some (midCol snaps) i h1 (by rw [length_midCol]; omega)
    have hmem := vals_mem_of_entry (returnsCol (midCol snaps)) i q (by omega) hq
    have hpos : 1 ≤ ((windowAt (returnsCol (midCol snaps)) i).filterMap id).length := by
      have := List.length_pos.mpr (List.ne_nil_of_mem hmem)
      omega
    exact ⟨hpos, colAt_volColInfer_pos sq snaps i (by omega) hpos⟩
  · intro i hi hzero
    exact colAt_volColInfer_zero sq snaps i (by omega) hzero
  · intro s₀
    norm_num [processSnapshot, computeFeaturesInfer, rowInfer, volColInfer, rollingStdCol,
      returnsCol, midCol, colAt, windowAt, List.range_succ]

/-- Witness for C7: the second row of a concrete two-snapshot inference run
has one trailing return sample and its volatility is computed from it. -/
theorem volatility_mode_semantics_witness :
    ((1 : ℕ) < 2 ∧ (1 : ℕ) ≤ 1)
    ∧ (rowInfer (fun q => q) [⟨0, 10, 11, 1, 1⟩, ⟨1, 12, 13, 1, 1⟩] 1).volatility_5m =
        some (sampleVar ((windowAt (returnsCol
          (midCol [⟨0, 10, 11, 1, 1⟩, ⟨1, 12, 13, 1, 1⟩])) 1).filterMap id)) :=
  ⟨⟨by norm_num, le_refl 1⟩,
    ((volatility_mode_semantics (fun q => q)
      [⟨0, 10, 11, 1, 1⟩, ⟨1, 12, 13, 1, 1⟩]).2.2.2.1 1 (by norm_num) (le_refl 1)).2⟩

/-! ## Per-row independence of the instantaneous features -/

/-- Replace only the two size fields of a snapshot. -/
def setSizes (s : Snap) (b a : ℚ) : Snap := { s with bid_sz := b, ask_sz := a }

theorem getD_set_ne (l : List Snap) (k j : ℕ) (x : Snap) (h : j ≠ k) :
    (l.set k x).getD j default = l.getD j default := by
  induction l generalizing k j with
  | nil => simp
  | cons hd t ih =>
    cases k with
    | zero =>
      cases j with
      | zero => omega
      | succ jj => simp [List.set]
    | succ kk =>
      cases j with
      | zero => simp [List.set]
      | succ jj =>
        simp only [List.set, List.getD_cons_succ]
        exact ih kk jj (by omega)

theorem map_set_same (f : Snap → ℚ) (l : List Snap) (k : ℕ) (x : Snap)
    (hf : f x = f (l.getD k default)) : (l.set k x).map f = l.map f := by
  induction l generalizing k with
  | nil => rfl
  | cons hd t ih =>
    cases k with
    | zero =>
      simp only [List.getD_cons_zero] at hf
      simp only [List.set, List.map_cons, hf]
    | succ kk =>
      simp only [List.getD_cons_succ] at hf
      simp only [List.set, List.map_cons]
      rw [ih kk hf]

theorem midCol_set (snaps : List Snap) (k : ℕ) (b a : ℚ) :
    midCol (snaps.set k (setSizes (snaps.getD k default) b a)) = midCol snaps :=
  map_set_same midPrice snaps k _ rfl

theorem volColInfer_set (sq : ℚ → ℚ) (snaps : List Snap) (k : ℕ) (b a : ℚ) :
    volColInfer sq (snaps.set k (setSizes (snaps.getD k default) b a)) =
      volColInfer sq snaps := by
  unfold volColInfer
  rw [midCol_set]

theorem rowInfer_set (sq : ℚ → ℚ) (snaps : List Snap) (k : ℕ) (b a : ℚ) (j : ℕ)
    (hjk : j ≠ k) :
    rowInfer sq (snaps.set k (setSizes (snaps.getD k default) b a)) j =
      rowInfer sq snaps j := by
  unfold rowInfer
  rw [volColInfer_set, getD_set_ne snaps k j _ hjk]

theorem keepTrain_set (snaps : List Snap) (k : ℕ) (b a : ℚ) (i : ℕ) :
    keepTrain (snaps.set k (setSizes (snaps.getD k default) b a)) i =
      keepTrain snaps i := by
  unfold keepTrain volColTrain
  rw [midCol_set]

theorem rowTrain_set (sq : ℚ → ℚ) (snaps : List Snap) (k : ℕ) (b a : ℚ) (i : ℕ)
    (hik : i ≠ k) :
    rowTrain sq (snaps.set k (setSizes (snaps.getD k default) b a)) i =
      rowTrain sq snaps i := by
  unfold rowTrain volColTrain
  rw [midCol_set, getD_set_ne snaps k i _ hik]

/-- C9: on a snapshot whose best-bid and best-ask sizes are both zero, the
imbalance feature is the 0/0 float division — NaN (embedded `none`), not an
exception (the embedding is total) — and feature computation on the
remaining rows is unaffected: altering a row's sizes arbitrarily changes no
other output row, in inference mode (row for row) and in training mode
(same survivor set, same rows at every other index). -/
theorem imbalance_zero_sizes_nan :
    ((∀ s : Snap, s.bid_sz = 0 → s.ask_sz = 0 → imbalance s = none)
    ∧ (∀ (sq : ℚ → ℚ) (snaps : List Snap) (k : ℕ) (b a : ℚ) (j : ℕ), j ≠ k →
        (computeFeaturesInfer sq (snaps.set k (setSizes (snaps.getD k default) b a))).get? j
          = (computeFeaturesInfer sq snaps).get? j)
    ∧ (∀ (snaps : List Snap) (k : ℕ) (b a : ℚ) (i : ℕ),
        keepTrain (snaps.set k (setSizes (snaps.getD k default) b a)) i
          = keepTrain snaps i)
    ∧ (∀ (sq : ℚ → ℚ) (snaps : List Snap) (k : ℕ) (b a : ℚ) (i : ℕ), i ≠ k →
        rowTrain sq (snaps.set k (setSizes (snaps.getD k default) b a)) i
          = rowTrain sq snaps i)) := by
  refine ⟨?_, ?_, keepTrain_set, rowTrain_set⟩
  · intro s hb ha
    unfold imbalance
    rw [if_pos (by rw [hb, ha]; norm_num)]
  · intro sq snaps k b a j hjk
    have hlen : (snaps.set k (setSizes (snaps.getD k default) b a)).length = snaps.length :=
      List.length_set snaps k _
    unfold computeFeaturesInfer
    by_cases hj : j < snaps.length
    · rw [List.get?_map, List.get?_map, List.get?_range (by omega),
        List.get?_range (by omega)]
      rw [Option.map_some', Option.map_some', rowInfer_set sq snaps k b a j hjk]
    · rw [List.get?_eq_none.mpr (by simp only [List.length_map, List.length_range]; omega),
        List.get?_eq_none.mpr (by simp only [List.length_map, List.length_range]; omega)]

/-- Witness for C9: the concrete zero-size snapshot's imbalance is NaN. -/
theorem imbalance_zero_sizes_nan_witness :
    ((0 : ℚ) = 0) ∧ imbalance ⟨0, 10, 11, 0, 0⟩ = none :=
  ⟨rfl, imbalance_zero_sizes_nan.1 ⟨0, 10, 11, 0, 0⟩ rfl rfl⟩
